import Mathlib

/-!
Shallow embedding of the core of the Maestro kernel (a Unix-like kernel
written in Rust) and proofs about it.

Each definition mirrors one item of the Rust source; the file then states
and proves the specification claims about those definitions.  Rust `usize`
arithmetic is modelled on `Nat` with explicit `% 2 ^ 32` where overflow can
occur, `isize` on `Int` with `Int.tdiv` (Rust `/` truncates toward zero),
and fallible operations return `Except ErrnoK`.
-/

set_option linter.unusedVariables false

namespace Maestro

/-- Error kinds used by the kernel (`utils::errno`), restricted to the codes
exercised by the embedded functions. -/
inductive ErrnoK where
  | EFAULT
  | EINVAL
  | ENOENT
  | EACCES
  | ELOOP
  | ENOMEM
  | EBADF
  | EPERM
  deriving DecidableEq, Repr

/-! ## Signals (`src/process/signal/mod.rs`) -/

/-- `SignalAction`: the action to perform for a signal. -/
inductive SignalAction where
  | Terminate
  | Abort
  | Ignore
  | Stop
  | Continue
  deriving DecidableEq, Repr

/-- `SigAction`: user-specified signal action.  Function pointers are
modelled as addresses; only the fields the embedded code reads are kept. -/
structure SigAction where
  sa_handler : Option Nat
  sa_mask : Nat
  sa_flags : Int
  deriving DecidableEq, Repr

/-- `SignalHandler`: how a process handles one signal. -/
inductive SignalHandler where
  | Ignore
  | Default
  | Handler (action : SigAction)
  deriving DecidableEq, Repr

/-- `Signal`: the enumeration of signal types, in source order. -/
inductive Signal where
  | SIGABRT
  | SIGALRM
  | SIGBUS
  | SIGCHLD
  | SIGCONT
  | SIGFPE
  | SIGHUP
  | SIGILL
  | SIGINT
  | SIGKILL
  | SIGPIPE
  | SIGQUIT
  | SIGSEGV
  | SIGSTOP
  | SIGTERM
  | SIGTSTP
  | SIGTTIN
  | SIGTTOU
  | SIGUSR1
  | SIGUSR2
  | SIGPOLL
  | SIGPROF
  | SIGSYS
  | SIGTRAP
  | SIGURG
  | SIGVTALRM
  | SIGXCPU
  | SIGXFSZ
  | SIGWINCH
  deriving DecidableEq, Repr, Fintype

/-- `Signal::get_id`. -/
def Signal.get_id : Signal → Nat
  | .SIGHUP => 1
  | .SIGINT => 2
  | .SIGQUIT => 3
  | .SIGILL => 4
  | .SIGTRAP => 5
  | .SIGABRT => 6
  | .SIGBUS => 7
  | .SIGFPE => 8
  | .SIGKILL => 9
  | .SIGUSR1 => 10
  | .SIGSEGV => 11
  | .SIGUSR2 => 12
  | .SIGPIPE => 13
  | .SIGALRM => 14
  | .SIGTERM => 15
  | .SIGCHLD => 17
  | .SIGCONT => 18
  | .SIGSTOP => 19
  | .SIGTSTP => 20
  | .SIGTTIN => 21
  | .SIGTTOU => 22
  | .SIGURG => 23
  | .SIGXCPU => 24
  | .SIGXFSZ => 25
  | .SIGVTALRM => 26
  | .SIGPROF => 27
  | .SIGWINCH => 28
  | .SIGPOLL => 29
  | .SIGSYS => 31

/-- `Signal::get_default_action`. -/
def Signal.get_default_action : Signal → SignalAction
  | .SIGABRT => .Abort
  | .SIGALRM => .Terminate
  | .SIGBUS => .Abort
  | .SIGCHLD => .Ignore
  | .SIGCONT => .Continue
  | .SIGFPE => .Abort
  | .SIGHUP => .Terminate
  | .SIGILL => .Abort
  | .SIGINT => .Terminate
  | .SIGKILL => .Terminate
  | .SIGPIPE => .Terminate
  | .SIGQUIT => .Abort
  | .SIGSEGV => .Abort
  | .SIGSTOP => .Stop
  | .SIGTERM => .Terminate
  | .SIGTSTP => .Stop
  | .SIGTTIN => .Stop
  | .SIGTTOU => .Stop
  | .SIGUSR1 => .Terminate
  | .SIGUSR2 => .Terminate
  | .SIGPOLL => .Terminate
  | .SIGPROF => .Terminate
  | .SIGSYS => .Abort
  | .SIGTRAP => .Abort
  | .SIGURG => .Ignore
  | .SIGVTALRM => .Terminate
  | .SIGXCPU => .Abort
  | .SIGXFSZ => .Abort
  | .SIGWINCH => .Ignore

/-- `Signal::can_catch`. -/
def Signal.can_catch (s : Signal) : Bool :=
  !(s = .SIGKILL || s = .SIGSEGV || s = .SIGSTOP || s = .SIGSYS)

/-! ### Process state and `Signal::execute_action`

The `Process` structure itself lives in `process/mod.rs`, which is not part
of the sources at hand; the fields and trivial accessors used by
`execute_action` are modelled from the specification's data model
(`state`, `pending_signals`, `sig_handlers`, `saved_context_for_signal`,
register state, init status).  `execute_action` itself is translated from
`src/process/signal/mod.rs`. -/

/-- Register state; only the registers touched by signal delivery are kept. -/
structure Regs where
  esp : Nat
  eip : Nat
  deriving DecidableEq, Repr

/-- `process::State`. -/
inductive PState where
  | Running
  | Sleeping
  | Stopped
  | Zombie
  deriving DecidableEq, Repr

/-- Modelled from the spec: the per-process state read and written by
signal delivery (`Process` is not among the sources at hand). -/
structure ProcessSig where
  state : PState
  is_init : Bool
  handlers : Signal → SignalHandler
  pending : Signal → Bool
  handling_signal : Bool
  regs : Regs
  saved : Option (Regs × Signal)
  signal_stack : Nat
  exit_status : Nat
  waitable : Option Nat

/-- Modelled from the spec: `Process::signal_clear` removes the signal from
the pending set. -/
def signal_clear (sig : Signal) (p : ProcessSig) : ProcessSig :=
  { p with pending := fun s => if s = sig then false else p.pending s }

/-- Modelled from the spec: `Process::exit` makes the process a zombie with
the given status. -/
def process_exit (status : Nat) (p : ProcessSig) : ProcessSig :=
  { p with state := .Zombie, exit_status := status }

/-- Modelled from the spec: `Process::set_waitable` records the wait status
for the parent. -/
def set_waitable (status : Nat) (p : ProcessSig) : ProcessSig :=
  { p with waitable := some status }

/-- Modelled from the spec: `Process::signal_save` saves the current
register frame into the signal-save slot. -/
def signal_save (sig : Signal) (p : ProcessSig) : ProcessSig :=
  { p with saved := some (p.regs, sig) }

/-- Address of the fixed signal trampoline (opaque constant). -/
def signal_trampoline_addr : Nat := 0xdead0000

/-- `Signal::execute_action`, translated statement by statement from
`src/process/signal/mod.rs`. -/
def execute_action (sig : Signal) (p : ProcessSig) (no_handler : Bool) : ProcessSig :=
  let p := signal_clear sig p
  let process_state := p.state
  if process_state = .Zombie then p
  else
    let handler := if !sig.can_catch || no_handler then .Default else p.handlers sig
    match handler with
    | .Ignore => p
    | .Default =>
      -- Signals on the init process can be executed only if the process has
      -- set a signal handler
      if sig.can_catch && p.is_init then p
      else
        match sig.get_default_action with
        | .Terminate | .Abort => process_exit sig.get_id p
        | .Ignore => p
        | .Stop =>
          let p := if process_state = .Running then { p with state := .Stopped } else p
          set_waitable sig.get_id p
        | .Continue =>
          let p := if process_state = .Stopped then { p with state := .Running } else p
          set_waitable sig.get_id p
    | .Handler _ =>
      if !p.handling_signal then
        let signal_esp := p.signal_stack - 12
        let p := signal_save sig p
        { p with regs := { esp := signal_esp, eip := signal_trampoline_addr } }
      else p

/-! ## Scheduler quanta (`src/process/scheduler.rs`, `src/util/math/mod.rs`) -/

/-- `AVERAGE_PRIORITY_QUANTA`: the number of quanta for the process with the
average priority. -/
def AVERAGE_PRIORITY_QUANTA : Nat := 10

/-- `MAX_PRIORITY_QUANTA`: the number of quanta for the process with the
maximum priority. -/
def MAX_PRIORITY_QUANTA : Nat := 30

/-- `util::math::integer_linear_interpolation` over `isize`, with Rust's
truncating signed division. -/
def integer_linear_interpolation (x a_x a_y b_x b_y : Int) : Int :=
  a_y + Int.tdiv ((x - a_x) * (-a_y + b_y)) (b_x - a_x)

/-- `Scheduler::get_average_priority`: `priority_sum / processes.len()`. -/
def get_average_priority (priority_sum processes_len : Nat) : Nat :=
  priority_sum / processes_len

/-- `Scheduler::get_quantum_count`, with the scheduler's heuristic fields
(`priority_sum`, number of processes, `priority_max`) passed explicitly.
The argument order of the `integer_linear_interpolation` call is exactly
the source's. -/
def get_quantum_count (priority_sum processes_len priority_max priority : Nat) : Nat :=
  let n := integer_linear_interpolation (priority : Int)
    (get_average_priority priority_sum processes_len : Int)
    (priority_max : Int)
    (AVERAGE_PRIORITY_QUANTA : Int)
    (MAX_PRIORITY_QUANTA : Int)
  (max 1 n).toNat

/-- Modelled from the spec: the quantum budget the specification describes,
the integer linear interpolation through the points
(average priority, 10) and (maximum priority, 30), clamped below at 1. -/
def spec_quantum_count (priority_sum processes_len priority_max priority : Nat) : Nat :=
  let n := integer_linear_interpolation (priority : Int)
    (get_average_priority priority_sum processes_len : Int)
    (AVERAGE_PRIORITY_QUANTA : Int)
    (priority_max : Int)
    (MAX_PRIORITY_QUANTA : Int)
  (max 1 n).toNat

/-! ## Theorems for claims C2, C7, C10 -/

/-- C2: `Signal::get_default_action` maps the signals exactly as tabulated
(Terminate for HUP, INT, KILL, USR1, USR2, PIPE, ALRM, TERM, POLL, PROF,
VTALRM; Abort for ABRT, BUS, FPE, ILL, QUIT, SEGV, SYS, TRAP, XCPU, XFSZ;
Ignore for CHLD, URG, WINCH; Stop for STOP, TSTP, TTIN, TTOU; Continue for
CONT), and `Signal::can_catch` returns `false` exactly for KILL, SEGV,
STOP, SYS. -/
theorem c2_default_actions_and_can_catch :
    (∀ s : Signal, s.get_default_action = .Terminate ↔
      (s = .SIGHUP ∨ s = .SIGINT ∨ s = .SIGKILL ∨ s = .SIGUSR1 ∨ s = .SIGUSR2 ∨
        s = .SIGPIPE ∨ s = .SIGALRM ∨ s = .SIGTERM ∨ s = .SIGPOLL ∨ s = .SIGPROF ∨
        s = .SIGVTALRM)) ∧
    (∀ s : Signal, s.get_default_action = .Abort ↔
      (s = .SIGABRT ∨ s = .SIGBUS ∨ s = .SIGFPE ∨ s = .SIGILL ∨ s = .SIGQUIT ∨
        s = .SIGSEGV ∨ s = .SIGSYS ∨ s = .SIGTRAP ∨ s = .SIGXCPU ∨ s = .SIGXFSZ)) ∧
    (∀ s : Signal, s.get_default_action = .Ignore ↔
      (s = .SIGCHLD ∨ s = .SIGURG ∨ s = .SIGWINCH)) ∧
    (∀ s : Signal, s.get_default_action = .Stop ↔
      (s = .SIGSTOP ∨ s = .SIGTSTP ∨ s = .SIGTTIN ∨ s = .SIGTTOU)) ∧
    (∀ s : Signal, s.get_default_action = .Continue ↔ s = .SIGCONT) ∧
    (∀ s : Signal, s.can_catch = false ↔
      (s = .SIGKILL ∨ s = .SIGSEGV ∨ s = .SIGSTOP ∨ s = .SIGSYS)) := by
  refine ⟨?_, ?_, ?_, ?_, ?_, ?_⟩ <;> (intro s; cases s <;> simp [Signal.get_default_action, Signal.can_catch])

/-- C7 (code bug): evaluating `Scheduler::get_quantum_count` on a scheduler
with two processes of priorities 0 and 40 (`priority_sum = 40`, so the
average priority is 20, `priority_max = 40`): for the process with the
average priority the code yields 40 quanta, while the interpolation the
specification (and the doc comments of `AVERAGE_PRIORITY_QUANTA` /
`MAX_PRIORITY_QUANTA`) prescribes yields 10.  The call site passes
`priority_max` where `integer_linear_interpolation` expects the y-value of
the first point and `AVERAGE_PRIORITY_QUANTA` where it expects the x-value
of the second point, so the interpolation runs through the wrong points. -/
theorem c7_quantum_count_bug :
    get_quantum_count 40 2 40 20 = 40 ∧
    spec_quantum_count 40 2 40 20 = 10 ∧
    get_quantum_count 40 2 40 20 ≠ spec_quantum_count 40 2 40 20 := by
  refine ⟨by decide, by decide, by decide⟩

/-- C10: executing the action of a catchable signal whose effective handler
is `Default` on the init process only clears the signal from the pending
set: the state, registers, saved context, exit status and waitability of
init are untouched, so init is never terminated, aborted, stopped or
continued by the default action of a catchable signal. -/
theorem c10_init_default_noop (sig : Signal) (p : ProcessSig) (no_handler : Bool)
    (hcatch : sig.can_catch = true)
    (hdef : p.handlers sig = .Default ∨ no_handler = true)
    (hinit : p.is_init = true) :
    execute_action sig p no_handler = signal_clear sig p := by
  have hh : (if !sig.can_catch || no_handler then SignalHandler.Default
      else (signal_clear sig p).handlers sig) = SignalHandler.Default := by
    rcases hdef with h | h
    · cases no_handler <;> simp [signal_clear, h]
    · simp [h]
  have hi : (signal_clear sig p).is_init = true := hinit
  simp only [execute_action]
  split
  · rfl
  · rw [hh]
    simp [hcatch, hi]

/-- Witness for C10: a concrete init process with the default handler for
`SIGTERM`; executing the action is exactly the pending-clear. -/
theorem c10_init_default_noop_witness :
    Signal.can_catch .SIGTERM = true ∧
    (({ state := .Running, is_init := true, handlers := fun _ => .Default,
        pending := fun _ => true, handling_signal := false,
        regs := ⟨100, 200⟩, saved := none, signal_stack := 4096,
        exit_status := 0, waitable := none } : ProcessSig).handlers .SIGTERM
          = .Default ∨ false = true) ∧
    ({ state := .Running, is_init := true, handlers := fun _ => .Default,
        pending := fun _ => true, handling_signal := false,
        regs := ⟨100, 200⟩, saved := none, signal_stack := 4096,
        exit_status := 0, waitable := none } : ProcessSig).is_init = true ∧
    execute_action .SIGTERM
      { state := .Running, is_init := true, handlers := fun _ => .Default,
        pending := fun _ => true, handling_signal := false,
        regs := ⟨100, 200⟩, saved := none, signal_stack := 4096,
        exit_status := 0, waitable := none } false =
    signal_clear .SIGTERM
      { state := .Running, is_init := true, handlers := fun _ => .Default,
        pending := fun _ => true, handling_signal := false,
        regs := ⟨100, 200⟩, saved := none, signal_stack := 4096,
        exit_status := 0, waitable := none } :=
  ⟨rfl, Or.inl rfl, rfl,
    c10_init_default_noop .SIGTERM _ false rfl (Or.inl rfl) rfl⟩

/-! ## Typed user-pointer wrappers (`kernel/src/process/mem_space/ptr.rs`)

The wrappers are generic over the pointee type `T`; the embedding carries
`size_of::<T>()` as an explicit `size` argument and models a produced
reference by the address it points at.  The `MemSpace` type itself is not
among the sources at hand; the wrappers only consume its
`can_access`/`can_access_string`/`alloc` interface, which is therefore kept
abstract (arbitrary function fields), and calls to `alloc` are logged so
that theorems can speak about which allocations were performed. -/

/-- Modelled from the spec: the interface of `MemSpace` that
`mem_space/ptr.rs` consumes (`MemSpace` itself is not among the sources at
hand).  `can_access va len user write` probes an address range,
`can_access_string va user write` walks until a NUL byte and returns the
inclusive length, `alloc va len` pre-faults a range and may fail. -/
structure MemSpaceA where
  can_access : Nat → Nat → Bool → Bool → Bool
  can_access_string : Nat → Bool → Bool → Option Nat
  alloc : Nat → Nat → Except ErrnoK Unit

/-- `NonNull::new`: a raw register value becomes `none` when null. -/
def nonnull_new (val : Nat) : Option Nat :=
  if val = 0 then none else some val

/-- `SyscallPtr`: wrapper for a pointer (`Option<NonNull<T>>`). -/
structure SyscallPtr where
  ptr : Option Nat

/-- `impl From<usize> for SyscallPtr`. -/
def SyscallPtr.from_usize (val : Nat) : SyscallPtr :=
  ⟨nonnull_new val⟩

/-- `SyscallPtr::get`: immutable access; `size` is `size_of::<T>()`. -/
def SyscallPtr.get (s : SyscallPtr) (size : Nat) (ms : MemSpaceA) :
    Except ErrnoK (Option Nat) :=
  match s.ptr with
  | none => .ok none
  | some p =>
    if !ms.can_access p size true false then .error .EFAULT
    else .ok (some p)

/-- `SyscallPtr::get_mut`: mutable access; returns the result together with
the list of `(address, length)` arguments of the `MemSpace::alloc` calls
performed. -/
def SyscallPtr.get_mut (s : SyscallPtr) (size : Nat) (ms : MemSpaceA) :
    Except ErrnoK (Option Nat) × List (Nat × Nat) :=
  match s.ptr with
  | none => (.ok none, [])
  | some p =>
    if !ms.can_access p size true true then (.error .EFAULT, [])
    else
      -- Allocate memory to make sure it is writable
      match ms.alloc p size with
      | .error e => (.error e, [(p, size)])
      | .ok _ => (.ok (some p), [(p, size)])

/-- `SyscallSlice`: wrapper for a slice; the element count is supplied at
access time. -/
structure SyscallSlice where
  ptr : Option Nat

/-- `impl From<usize> for SyscallSlice`. -/
def SyscallSlice.from_usize (val : Nat) : SyscallSlice :=
  ⟨nonnull_new val⟩

/-- `SyscallSlice::get`: `elem_size` is `size_of::<T>()`, `len` the number
of elements. -/
def SyscallSlice.get (s : SyscallSlice) (elem_size len : Nat) (ms : MemSpaceA) :
    Except ErrnoK (Option Nat) :=
  match s.ptr with
  | none => .ok none
  | some p =>
    let size := elem_size * len
    if !ms.can_access p size true false then .error .EFAULT
    else .ok (some p)

/-- `SyscallSlice::get_mut`, with the `MemSpace::alloc` call log. -/
def SyscallSlice.get_mut (s : SyscallSlice) (elem_size len : Nat) (ms : MemSpaceA) :
    Except ErrnoK (Option Nat) × List (Nat × Nat) :=
  match s.ptr with
  | none => (.ok none, [])
  | some p =>
    let size := elem_size * len
    if !ms.can_access p size true true then (.error .EFAULT, [])
    else
      -- Allocate memory to make sure it is writable
      match ms.alloc p size with
      | .error e => (.error e, [(p, size)])
      | .ok _ => (.ok (some p), [(p, size)])

/-- `SyscallString`: wrapper for a NUL-terminated user string. -/
structure SyscallString where
  ptr : Option Nat

/-- `impl From<usize> for SyscallString`. -/
def SyscallString.from_usize (val : Nat) : SyscallString :=
  ⟨nonnull_new val⟩

/-- `SyscallString::get`: returns the string as its address and length. -/
def SyscallString.get (s : SyscallString) (ms : MemSpaceA) :
    Except ErrnoK (Option (Nat × Nat)) :=
  match s.ptr with
  | none => .ok none
  | some p =>
    match ms.can_access_string p true false with
    | none => .error .EFAULT
    | some len => .ok (some (p, len))

/-! ## Theorems for claims C1 and C9 -/

/-- C1: for every non-null user address, `SyscallPtr::get_mut` and
`SyscallSlice::get_mut` produce a reference only if `MemSpace::can_access`
approves the whole byte range for a user-mode write, and then the exact
range has been pre-faulted by a `MemSpace::alloc` call; if `can_access`
refuses, the access returns `EFAULT` and no allocation is performed. -/
theorem c1_get_mut_can_access_alloc (ms : MemSpaceA) (addr size elem_size len : Nat)
    (hnn : addr ≠ 0) :
    ((∀ v, ((SyscallPtr.from_usize addr).get_mut size ms).1 = .ok (some v) →
        ms.can_access addr size true true = true ∧
        ((SyscallPtr.from_usize addr).get_mut size ms).2 = [(addr, size)]) ∧
      (ms.can_access addr size true true = false →
        (SyscallPtr.from_usize addr).get_mut size ms = (.error .EFAULT, []))) ∧
    ((∀ v, ((SyscallSlice.from_usize addr).get_mut elem_size len ms).1 = .ok (some v) →
        ms.can_access addr (elem_size * len) true true = true ∧
        ((SyscallSlice.from_usize addr).get_mut elem_size len ms).2
          = [(addr, elem_size * len)]) ∧
      (ms.can_access addr (elem_size * len) true true = false →
        (SyscallSlice.from_usize addr).get_mut elem_size len ms
          = (.error .EFAULT, []))) := by
  have hptr : (SyscallPtr.from_usize addr).ptr = some addr := by
    simp [SyscallPtr.from_usize, nonnull_new, hnn]
  have hslice : (SyscallSlice.from_usize addr).ptr = some addr := by
    simp [SyscallSlice.from_usize, nonnull_new, hnn]
  constructor
  · constructor
    · intro v hv
      by_cases hca : ms.can_access addr size true true
      · simp only [SyscallPtr.get_mut, hptr, hca]
        rcases h : ms.alloc addr size with e | u <;> simp [h]
      · simp only [SyscallPtr.get_mut, hptr, hca] at hv
        simp at hv
    · intro hca
      simp [SyscallPtr.get_mut, hptr, hca]
  · constructor
    · intro v hv
      by_cases hca : ms.can_access addr (elem_size * len) true true
      · simp only [SyscallSlice.get_mut, hslice, hca]
        rcases h : ms.alloc addr (elem_size * len) with e | u <;> simp [h]
      · simp only [SyscallSlice.get_mut, hslice, hca] at hv
        simp at hv
    · intro hca
      simp [SyscallSlice.get_mut, hslice, hca]

/-- Witness for C1: a memory space approving every access and a concrete
non-null address. -/
theorem c1_get_mut_can_access_alloc_witness :
    (8 : Nat) ≠ 0 ∧
    (let ms : MemSpaceA :=
      { can_access := fun _ _ _ _ => true,
        can_access_string := fun _ _ _ => some 0,
        alloc := fun _ _ => .ok () }
     (∀ v, ((SyscallPtr.from_usize 8).get_mut 4 ms).1 = .ok (some v) →
        ms.can_access 8 4 true true = true ∧
        ((SyscallPtr.from_usize 8).get_mut 4 ms).2 = [(8, 4)]) ∧
      (ms.can_access 8 4 true true = false →
        (SyscallPtr.from_usize 8).get_mut 4 ms = (.error .EFAULT, []))) := by
  refine ⟨by decide, ?_⟩
  exact (c1_get_mut_can_access_alloc
    { can_access := fun _ _ _ _ => true,
      can_access_string := fun _ _ _ => some 0,
      alloc := fun _ _ => .ok () } 8 4 4 2 (by decide)).1

/-- C9: every wrapper built from a null user address yields `Ok(None)` from
`get`/`get_mut` rather than an `EFAULT` error (and performs no
allocation); an `EFAULT` for a null argument can therefore only come from
the individual syscall handler. -/
theorem c9_null_wrappers_ok_none (ms : MemSpaceA) (size elem_size len : Nat) :
    (SyscallPtr.from_usize 0).get size ms = .ok none ∧
    (SyscallPtr.from_usize 0).get_mut size ms = (.ok none, []) ∧
    (SyscallSlice.from_usize 0).get elem_size len ms = .ok none ∧
    (SyscallSlice.from_usize 0).get_mut elem_size len ms = (.ok none, []) ∧
    (SyscallString.from_usize 0).get ms = .ok none := by
  refine ⟨rfl, rfl, rfl, rfl, rfl⟩

/-! ## Program-image installation (`kernel/src/process/exec/mod.rs`) -/

/-- The full x86 register frame (`Regs`); `Regs::default()` zeroes every
field. -/
structure KRegs where
  eip : Nat
  esp : Nat
  eax : Nat
  ebx : Nat
  ecx : Nat
  edx : Nat
  esi : Nat
  edi : Nat
  ebp : Nat
  deriving DecidableEq, Repr

/-- `Regs::default()`. -/
def KRegs.default : KRegs :=
  { eip := 0, esp := 0, eax := 0, ebx := 0, ecx := 0, edx := 0,
    esi := 0, edi := 0, ebp := 0 }

/-- `ProgramImage`: a built program image.  `argv`/`envp` are byte strings,
the memory space is abstracted by an identifier, `entry_point` and
`user_stack` are virtual addresses. -/
structure ProgramImage where
  argv : List (List Nat)
  envp : List Nat
  mem_space : Nat
  entry_point : Nat
  user_stack : Nat

/-- Modelled from the spec: the fields of the kernel `Process` touched by
`exec` (`Process` itself is not among the sources at hand): argv/envp
snapshots, the optional memory space and fd table, the signal-handler
table, the pending-signal set, TLS entries, vfork state and registers. -/
structure KProcess where
  argv : List (List Nat)
  envp : List Nat
  mem_space : Option Nat
  file_descriptors : Option Nat
  signal_handlers : Signal → SignalHandler
  sigpending : Signal → Bool
  tls_entries : List Nat
  vfork_active : Bool
  regs : KRegs

/-- The default (reset) TLS entries (`Default::default()`). -/
def tls_default : List Nat := []

/-- `exec`: installs the program image `image` on the process `proc`,
translated statement by statement.  `dup_cloexec` abstracts
`FileDescriptorTable::duplicate(true)` (the fd table is not among the
sources at hand). -/
def exec (dup_cloexec : Nat → Nat) (proc : KProcess) (image : ProgramImage) : KProcess :=
  { proc with
    argv := image.argv,
    envp := image.envp,
    -- Set the new memory space to the process
    mem_space := some image.mem_space,
    -- Duplicate the file descriptor table
    file_descriptors := proc.file_descriptors.map dup_cloexec,
    -- Reset signals
    signal_handlers := fun _ => .Default,
    vfork_active := false,
    tls_entries := tls_default,
    -- Set the process's registers
    regs := { KRegs.default with esp := image.user_stack, eip := image.entry_point } }

/-- The property claim C5 asserts of `exec` at one input. -/
def c5_claimed (dup_cloexec : Nat → Nat) (proc : KProcess) (image : ProgramImage) : Prop :=
  (exec dup_cloexec proc image).mem_space = some image.mem_space ∧
  (∀ s, proc.signal_handlers s ≠ .Ignore →
    (exec dup_cloexec proc image).signal_handlers s = .Default) ∧
  (∀ s, proc.signal_handlers s = .Ignore →
    (exec dup_cloexec proc image).signal_handlers s = .Ignore) ∧
  (∀ s, (exec dup_cloexec proc image).sigpending s = false) ∧
  (exec dup_cloexec proc image).tls_entries = tls_default ∧
  (exec dup_cloexec proc image).regs =
    { KRegs.default with esp := image.user_stack, eip := image.entry_point }

/-! ## Theorems for claim C5 -/

/-- C5 counterexample: a process whose `SIGINT` handler is `Ignore` and
whose `SIGINT` is pending.  `exec` resets the handler to `Default` instead
of preserving `Ignore`, and leaves the signal pending instead of clearing
it, so the claim fails at this input. -/
theorem c5_exec_claim_false :
    ¬ c5_claimed id
      { argv := [], envp := [], mem_space := none, file_descriptors := none,
        signal_handlers := fun _ => .Ignore,
        sigpending := fun _ => true,
        tls_entries := [1, 2], vfork_active := false, regs := KRegs.default }
      { argv := [], envp := [], mem_space := 7, entry_point := 100,
        user_stack := 200 } := by
  intro h
  have h3 := h.2.2.1 .SIGINT rfl
  simp [exec] at h3

/-- C5 as amended: `exec` replaces the process's memory space by the
image's, resets every signal handler to `Default` (including those set to
`Ignore`), leaves the pending-signal set unchanged (it does not clear it),
resets the TLS entries, and sets the registers to PC = image entry point,
SP = image stack top, all other registers zero. -/
theorem c5_exec_installs_image (dup_cloexec : Nat → Nat) (proc : KProcess)
    (image : ProgramImage) :
    (exec dup_cloexec proc image).mem_space = some image.mem_space ∧
    (∀ s, (exec dup_cloexec proc image).signal_handlers s = .Default) ∧
    (∀ s, (exec dup_cloexec proc image).sigpending s = proc.sigpending s) ∧
    (exec dup_cloexec proc image).tls_entries = tls_default ∧
    (exec dup_cloexec proc image).regs =
      { eip := image.entry_point, esp := image.user_stack, eax := 0, ebx := 0,
        ecx := 0, edx := 0, esi := 0, edi := 0, ebp := 0 } := by
  refine ⟨rfl, fun s => rfl, fun s => rfl, rfl, rfl⟩

/-! ## VFS path resolution (`src/file/vfs.rs`, `get_file_by_path_impl`)

Path components and link targets are abstracted as numbers, a filesystem as
its root inode together with `get_inode` (component lookup) and the per-file
content; inaccessible directory checks go through `can_search`.  The single
mountpoint is the filesystem root, so the mount path prefix in the link
substitution `mountpath/prefix/link/suffix` is empty. -/

/-- `FileContent`, restricted to what resolution inspects. -/
inductive FileContentM where
  | Directory
  | Regular
  | Link (target : List Nat)
  deriving DecidableEq, Repr

/-- The filesystem interface consumed by `get_file_by_path_impl`:
`get_root_inode`, `get_inode` (returning `none` for a missing entry) and
`load_file` (as the content of an inode), plus the access profile's
`can_search_directory` on the file of an inode. -/
structure FSm where
  root : Nat
  get_inode : Nat → Nat → Option Nat
  content : Nat → FileContentM
  can_search : Nat → Bool

/-- Modelled from the spec: `limits::SYMLOOP_MAX` (the limits module is not
among the sources at hand); the configurable maximum of cumulative link
traversals, default 40. -/
def SYMLOOP_MAX : Nat := 40

/-- The component loop of `get_file_by_path_impl`.  `i` is the loop index,
`inode`/`file` the inode reached so far and its content, `follows_count`
the number of links followed since the beginning of the resolution.
Following a link substitutes its target into the path
(`prefix ++ target ++ suffix`) and restarts from the filesystem root, which
inlines the recursive call to `get_file_by_path_impl` of the source. -/
def gfbp_loop (fs : FSm) (follow_links : Bool) (path : List Nat) (i : Nat)
    (inode : Nat) (file : FileContentM) (follows_count : Nat) : Except ErrnoK Nat :=
  if h : i < path.length then
    match fs.get_inode inode path[i] with
    | none => .error .ENOENT
    | some inode2 =>
      -- Check permissions
      if i < path.length - 1 ∧ fs.can_search inode = false then .error .EACCES
      else
        -- Get file
        let file2 := fs.content inode2
        -- If this is not the last element, or if links are followed
        if i < path.length - 1 ∨ follow_links = true then
          match file2 with
          | .Link link_path =>
            -- If symbolic link, resolve it
            if follows_count > SYMLOOP_MAX then .error .ELOOP
            else
              gfbp_loop fs follow_links
                (path.take i ++ link_path ++ path.drop (i + 1)) 0
                fs.root (fs.content fs.root) (follows_count + 1)
          | _ => gfbp_loop fs follow_links path (i + 1) inode2 file2 follows_count
        else gfbp_loop fs follow_links path (i + 1) inode2 file2 follows_count
  else .ok inode
termination_by (SYMLOOP_MAX + 1 - follows_count, path.length - i)
decreasing_by
  · apply Prod.Lex.left
    omega
  · apply Prod.Lex.right
    omega
  · apply Prod.Lex.right
    omega

/-- `get_file_by_path_impl fs follow_links path follows_count`. -/
def get_file_by_path_impl (fs : FSm) (follow_links : Bool) (path : List Nat)
    (follows_count : Nat) : Except ErrnoK Nat :=
  gfbp_loop fs follow_links path 0 fs.root (fs.content fs.root) follows_count

/-- `get_file_from_path`: public entry, starting with zero followed links. -/
def get_file_from_path (fs : FSm) (follow_links : Bool) (path : List Nat) :
    Except ErrnoK Nat :=
  get_file_by_path_impl fs follow_links path 0

/-- A filesystem containing a chain of `n` symbolic links: component `k`
resolves to inode `k + 1`; inodes `1..n` are links whose target is the
single component naming the next inode, inode `n + 1` is a regular file.
Resolving the path `[0]` therefore needs exactly `n` link traversals. -/
def chainFS (n : Nat) : FSm :=
  { root := 0,
    get_inode := fun _parent name => some (name + 1),
    content := fun ino =>
      if ino = 0 then .Directory
      else if ino ≤ n then .Link [ino] else .Regular,
    can_search := fun _ => true }

/-- Resolving the tail of a link chain: starting at component `k` with `k`
links already followed, resolution of `chainFS n` succeeds exactly when the
whole chain needs at most `SYMLOOP_MAX + 1` traversals. -/
theorem chainFS_loop (n : Nat) : ∀ m k, n - k = m → k ≤ SYMLOOP_MAX + 1 → k ≤ n →
    gfbp_loop (chainFS n) true [k] 0 (chainFS n).root
      ((chainFS n).content (chainFS n).root) k
      = if n ≤ SYMLOOP_MAX + 1 then .ok (n + 1) else .error .ELOOP := by
  intro m
  induction m with
  | zero =>
    intro k hm hk41 hkn
    have hkn' : k = n := by omega
    subst hkn'
    have h2 : ¬ (k + 1 ≤ k) := by omega
    rw [gfbp_loop]
    simp [chainFS, h2]
    rw [gfbp_loop]
    simp [hk41]
  | succ m ih =>
    intro k hm hk41 hkn
    have hS : SYMLOOP_MAX = 40 := rfl
    have hklt : k < n := by omega
    have h2 : k + 1 ≤ n := by omega
    rw [gfbp_loop]
    by_cases hk : SYMLOOP_MAX < k
    · have hn : ¬ n ≤ SYMLOOP_MAX + 1 := by omega
      simp [chainFS, h2, hk, hn]
    · have ihk := ih (k + 1) (by omega) (by omega) (by omega)
      simp only [chainFS] at ihk
      simp [chainFS, h2, hk]
      simpa using ihk

/-- C4 counterexample: a chain of 41 symbolic links — more than the
configured maximum of 40 cumulative traversals — still resolves
successfully (to inode 42), instead of failing with `ELOOP` as the claim
states. -/
theorem c4_symlink_counterexample :
    get_file_from_path (chainFS 41) true [0] = .ok 42 ∧
    (Except.ok 42 : Except ErrnoK Nat) ≠ .error .ELOOP := by
  constructor
  · have h := chainFS_loop 41 41 0 rfl (by omega) (by omega)
    simpa [get_file_from_path, get_file_by_path_impl] using h
  · simp

/-- C4 as amended: the resolver rejects a link only when the count of links
already followed exceeds `SYMLOOP_MAX` (40), so up to `SYMLOOP_MAX + 1 = 41`
cumulative traversals succeed and only a resolution needing more fails with
`ELOOP`.  First part: on a chain of `n` links, resolution succeeds iff
`n ≤ 41` and fails with `ELOOP` iff `n > 41`.  Second part: within the
budget, each link's target is substituted into the remaining path
(`prefix ++ target ++ suffix`) and resolution continues from the root with
the traversal count incremented. -/
theorem c4_symlink_bound :
    (∀ n : Nat,
      (n ≤ SYMLOOP_MAX + 1 → get_file_from_path (chainFS n) true [0] = .ok (n + 1)) ∧
      (SYMLOOP_MAX + 1 < n → get_file_from_path (chainFS n) true [0] = .error .ELOOP)) ∧
    (∀ (fs : FSm) (follow_links : Bool) (path : List Nat) (i inode inode2 : Nat)
        (file : FileContentM) (target : List Nat) (fc : Nat)
        (hi : i < path.length),
        fs.get_inode inode path[i] = some inode2 →
        ¬ (i < path.length - 1 ∧ fs.can_search inode = false) →
        fs.content inode2 = .Link target →
        (i < path.length - 1 ∨ follow_links = true) →
        fc ≤ SYMLOOP_MAX →
        gfbp_loop fs follow_links path i inode file fc =
          gfbp_loop fs follow_links (path.take i ++ target ++ path.drop (i + 1)) 0
            fs.root (fs.content fs.root) (fc + 1)) := by
  constructor
  · intro n
    constructor
    · intro hle
      have h := chainFS_loop n n 0 rfl (by omega) (by omega)
      rw [if_pos hle] at h
      simpa [get_file_from_path, get_file_by_path_impl] using h
    · intro hgt
      have h := chainFS_loop n n 0 rfl (by omega) (by omega)
      rw [if_neg (by omega)] at h
      simpa [get_file_from_path, get_file_by_path_impl] using h
  · intro fs follow_links path i inode inode2 file target fc hi hlookup hperm hcontent
      hcond hfc
    have hfc' : ¬ (fc > SYMLOOP_MAX) := by omega
    rw [gfbp_loop]
    simp [hi, hlookup, hperm, hcontent, hcond, hfc']

/-- Witness for C4's amended theorem: the chain of 43 links fails with
`ELOOP`, and on the one-link chain the first link found at component `0`
of path `[0]` is substituted. -/
theorem c4_symlink_bound_witness :
    (SYMLOOP_MAX + 1 < 43 ∧
      get_file_from_path (chainFS 43) true [0] = .error .ELOOP) ∧
    ((0 : Nat) < ([0] : List Nat).length ∧
      (chainFS 1).get_inode 0 0 = some 1 ∧
      ¬ ((0 : Nat) < ([0] : List Nat).length - 1 ∧ (chainFS 1).can_search 0 = false) ∧
      (chainFS 1).content 1 = .Link [1] ∧
      (0 : Nat) ≤ SYMLOOP_MAX ∧
      gfbp_loop (chainFS 1) true [0] 0 0 ((chainFS 1).content (chainFS 1).root) 0 =
        gfbp_loop (chainFS 1) true (([0] : List Nat).take 0 ++ [1] ++ ([0] : List Nat).drop 1) 0
          (chainFS 1).root ((chainFS 1).content (chainFS 1).root) 1) := by
  refine ⟨⟨by decide, c4_symlink_bound.1 43 |>.2 (by decide)⟩,
    by decide, by decide, by decide, by decide, by decide, ?_⟩
  exact c4_symlink_bound.2 (chainFS 1) true [0] 0 0 1
    ((chainFS 1).content (chainFS 1).root) [1] 0 (by decide) (by decide)
    (by decide) (by decide) (Or.inr rfl) (by decide)

/-! ## Memory-space mapping and `mmap` (`kernel/src/syscall/mmap.rs`)

`do_mmap` is translated from the source.  The `MemSpace` it drives is not
among the sources at hand, so `MemSpace::map` is modelled from the spec
(§4.2): a memory space is a set of mappings of whole pages; `Fixed`
overwrites any overlap after unmapping it, `Hint` tries the hint then falls
back to gap search, `None` picks any free range; mapping fails with
`ENOMEM` when no gap is large enough. -/

/-- `PAGE_SIZE`. -/
def PAGE_SIZE : Nat := 4096

/-- The boundary below which userspace mappings live (`KERNEL_BASE`). -/
def KERNEL_BASE : Nat := 0xc0000000

/-- Number of userspace pages. -/
def USER_PAGES : Nat := KERNEL_BASE / PAGE_SIZE

/-- One mapping: first page index, size in pages, mapping flags. -/
structure MSMapping where
  first : Nat
  size : Nat
  flags : Nat
  deriving DecidableEq, Repr

/-- A memory space's mapping set. -/
abbrev MSMaps := List MSMapping

/-- Whether some mapping covers the page `pg`. -/
def mappedPage (maps : MSMaps) (pg : Nat) : Bool :=
  maps.any fun m => m.first ≤ pg && pg < m.first + m.size

/-- Whether the `size` pages from `first` are all unmapped. -/
def rangeFree (maps : MSMaps) (first size : Nat) : Bool :=
  (List.range size).all fun j => !mappedPage maps (first + j)

/-- Remove the parts of one mapping that overlap `[first, first + size)`,
keeping the pieces on either side. -/
def unmapPiece (m : MSMapping) (first size : Nat) : List MSMapping :=
  let e := m.first + m.size
  (if m.first < first then [⟨m.first, min e first - m.first, m.flags⟩] else []) ++
    (if first + size < e then
      [⟨max m.first (first + size), e - max m.first (first + size), m.flags⟩]
    else [])

/-- Modelled from the spec: `MemSpace::unmap` splits mappings as needed so
that `[first, first + size)` is no longer covered. -/
def unmapRange (maps : MSMaps) (first size : Nat) : MSMaps :=
  match maps with
  | [] => []
  | m :: rest => unmapPiece m first size ++ unmapRange rest first size

/-- Gap search from page `b` upward, with explicit fuel. -/
def gapSearchAux (maps : MSMaps) (size : Nat) (b : Nat) : Nat → Option Nat
  | 0 => none
  | fuel + 1 =>
    if b + size ≤ USER_PAGES && rangeFree maps b size then some b
    else gapSearchAux maps size (b + 1) fuel

/-- Modelled from the spec: the gap search scans for a free range of
`size` pages below `KERNEL_BASE`. -/
def gapSearch (maps : MSMaps) (size : Nat) : Option Nat :=
  gapSearchAux maps size 0 USER_PAGES

/-- `MapConstraint`. -/
inductive MapConstraint where
  | NoneC
  | Hint (addr : Nat)
  | Fixed (addr : Nat)
  deriving DecidableEq, Repr

/-- Modelled from the spec: `MemSpace::map constraint pages flags`.
Returns the chosen base address (in bytes) and the new mapping set. -/
def memSpaceMap (maps : MSMaps) (constraint : MapConstraint) (pages : Nat)
    (flags : Nat) : Except ErrnoK (Nat × MSMaps) :=
  match constraint with
  | .Fixed addr =>
    let b := addr / PAGE_SIZE
    .ok (addr, ⟨b, pages, flags⟩ :: unmapRange maps b pages)
  | .Hint addr =>
    let b := addr / PAGE_SIZE
    if b + pages ≤ USER_PAGES && rangeFree maps b pages then
      .ok (addr, ⟨b, pages, flags⟩ :: maps)
    else
      match gapSearch maps pages with
      | some b2 => .ok (b2 * PAGE_SIZE, ⟨b2, pages, flags⟩ :: maps)
      | none => .error .ENOMEM
  | .NoneC =>
    match gapSearch maps pages with
    | some b2 => .ok (b2 * PAGE_SIZE, ⟨b2, pages, flags⟩ :: maps)
    | none => .error .ENOMEM

/-- `PROT_*` and `MAP_*` flag bits. -/
def PROT_READ : Nat := 1
/-- `PROT_WRITE`. -/
def PROT_WRITE : Nat := 2
/-- `PROT_EXEC`. -/
def PROT_EXEC : Nat := 4
/-- `MAP_SHARED`. -/
def MAP_SHARED : Nat := 1
/-- `MAP_FIXED`. -/
def MAP_FIXED : Nat := 2

/-- Modelled from the spec: the memory-space mapping flag bits (their
values are immaterial). -/
def MAPPING_FLAG_USER : Nat := 1
/-- Mapping flag: shared. -/
def MAPPING_FLAG_SHARED : Nat := 2
/-- Mapping flag: writable. -/
def MAPPING_FLAG_WRITE : Nat := 4
/-- Mapping flag: executable. -/
def MAPPING_FLAG_EXEC : Nat := 8

/-- `get_flags`: converts mmap's `flags` and `prot` to mapping flags. -/
def get_flags (flags prot : Nat) : Nat :=
  let f := MAPPING_FLAG_USER
  let f := if flags &&& MAP_SHARED ≠ 0 then f ||| MAPPING_FLAG_SHARED else f
  let f := if prot &&& PROT_WRITE ≠ 0 then f ||| MAPPING_FLAG_WRITE else f
  if prot &&& PROT_EXEC ≠ 0 then f ||| MAPPING_FLAG_EXEC else f

/-- `FileType`, restricted to the distinction `do_mmap` makes. -/
inductive FileTypeM where
  | Regular
  | Directory
  | Other
  deriving DecidableEq, Repr

/-- The stat and permission data `do_mmap` checks on a file, with the
access-profile checks (`can_read_file` etc.) pre-applied as booleans. -/
structure FileM where
  ftype : FileTypeM
  can_read : Bool
  can_write : Bool
  can_execute : Bool
  deriving DecidableEq, Repr

/-- `usize::div_ceil`. -/
def div_ceil (a b : Nat) : Nat :=
  a / b + (if a % b = 0 then 0 else 1)

/-- `do_mmap`, translated from `kernel/src/syscall/mmap.rs`.  The fd table
is a partial map from descriptors to the checked file data; `usize`
arithmetic wraps at `2 ^ 32`. -/
def do_mmap (addr length prot flags : Nat) (fd : Int) (offset : Nat)
    (fds : Int → Option FileM) (maps : MSMaps) : Except ErrnoK (Nat × MSMaps) :=
  -- Check alignment of `addr` and `length`
  if addr % PAGE_SIZE ≠ 0 ∨ length = 0 then .error .EINVAL
  else
    -- The length in number of pages
    let pages := div_ceil length PAGE_SIZE
    if pages = 0 then .error .EINVAL
    else
      -- Check for overflow
      if 2 ^ 32 ≤ addr + pages * PAGE_SIZE % 2 ^ 32 then .error .EINVAL
      else
        let constraint :=
          if addr ≠ 0 then
            if flags &&& MAP_FIXED ≠ 0 then MapConstraint.Fixed addr
            else MapConstraint.Hint addr
          else MapConstraint.NoneC
        -- Get and check the file
        let file? : Except ErrnoK (Option FileM) :=
          if 0 ≤ fd then
            if offset % PAGE_SIZE ≠ 0 then .error .EINVAL
            else
              match fds fd with
              | none => .error .EBADF
              | some f =>
                if f.ftype ≠ .Regular then .error .EACCES
                else if prot &&& PROT_READ ≠ 0 ∧ f.can_read = false then .error .EPERM
                else if prot &&& PROT_WRITE ≠ 0 ∧ f.can_write = false then .error .EPERM
                else if prot &&& PROT_EXEC ≠ 0 ∧ f.can_execute = false then .error .EPERM
                else .ok (some f)
          else .ok none
        match file? with
        | .error e => .error e
        | .ok _ =>
          let mem_flags := get_flags flags prot
          match memSpaceMap maps constraint pages mem_flags with
          | .ok r => .ok r
          | .error e =>
            if constraint ≠ .NoneC then
              memSpaceMap maps .NoneC pages mem_flags
            else .error e

/-- A successful gap search returns an in-bounds free range. -/
theorem gapSearchAux_some (maps : MSMaps) (s : Nat) :
    ∀ fuel b b2, gapSearchAux maps s b fuel = some b2 →
      b2 + s ≤ USER_PAGES ∧ rangeFree maps b2 s = true := by
  intro fuel
  induction fuel with
  | zero => intro b b2 h; simp [gapSearchAux] at h
  | succ fuel ih =>
    intro b b2 h
    rw [gapSearchAux] at h
    by_cases hc : (decide (b + s ≤ USER_PAGES) && rangeFree maps b s) = true
    · rw [if_pos hc] at h
      cases h
      simp only [Bool.and_eq_true, decide_eq_true_eq] at hc
      exact ⟨hc.1, hc.2⟩
    · rw [if_neg hc] at h
      exact ih (b + 1) b2 h

/-- A freshly installed mapping covers its whole range. -/
theorem mappedPage_cons_self (m : MSMapping) (rest : MSMaps) (j : Nat)
    (hj : j < m.size) :
    mappedPage (m :: rest) (m.first + j) = true := by
  simp [mappedPage]
  left
  omega

/-- Helper naming the number of pages of an mmap request. -/
theorem div_ceil_pos (length : Nat) (h : length ≠ 0) : div_ceil length PAGE_SIZE ≠ 0 := by
  have hp : PAGE_SIZE = 4096 := rfl
  simp only [div_ceil, hp]
  by_cases h4 : length % 4096 = 0
  · simp [h4]
    omega
  · simp [h4]

/-- C3: placement behaviour of `do_mmap` for a page-aligned, non-null
address and non-zero length (with an anonymous mapping, `fd < 0`, and no
address-space overflow).  With `MAP_FIXED`, the call succeeds with the
mapping placed exactly at the requested address: the result is the new
mapping over `[addr, addr + pages)` together with the previous mappings
from which any overlap with that range has been unmapped, and every page
of the range is mapped afterwards.  Without `MAP_FIXED` the address is
only advisory: any successful call returns a range that was free
beforehand, and whenever the gap search can find a free range the call
returns such a range rather than an error. -/
theorem c3_mmap_fixed_overwrites_hint_advisory
    (maps : MSMaps) (addr length prot flags : Nat) (fd : Int) (offset : Nat)
    (fds : Int → Option FileM)
    (hal : addr % PAGE_SIZE = 0) (hnn : addr ≠ 0) (hlen : length ≠ 0)
    (hfd : fd < 0)
    (hov : addr + div_ceil length PAGE_SIZE * PAGE_SIZE % 2 ^ 32 < 2 ^ 32) :
    (flags &&& MAP_FIXED ≠ 0 →
      do_mmap addr length prot flags fd offset fds maps =
        .ok (addr,
          ⟨addr / PAGE_SIZE, div_ceil length PAGE_SIZE, get_flags flags prot⟩ ::
            unmapRange maps (addr / PAGE_SIZE) (div_ceil length PAGE_SIZE)) ∧
      ∀ j < div_ceil length PAGE_SIZE,
        mappedPage
          (⟨addr / PAGE_SIZE, div_ceil length PAGE_SIZE, get_flags flags prot⟩ ::
            unmapRange maps (addr / PAGE_SIZE) (div_ceil length PAGE_SIZE))
          (addr / PAGE_SIZE + j) = true) ∧
    (flags &&& MAP_FIXED = 0 →
      (∀ va maps2, do_mmap addr length prot flags fd offset fds maps = .ok (va, maps2) →
        rangeFree maps (va / PAGE_SIZE) (div_ceil length PAGE_SIZE) = true) ∧
      (gapSearch maps (div_ceil length PAGE_SIZE) ≠ none →
        ∃ va maps2,
          do_mmap addr length prot flags fd offset fds maps = .ok (va, maps2))) := by
  have hnot : ¬ (addr % PAGE_SIZE ≠ 0 ∨ length = 0) := by
    push_neg
    exact ⟨hal, hlen⟩
  have hpages := div_ceil_pos length hlen
  have hfd' : ¬ ((0 : Int) ≤ fd) := by omega
  constructor
  · intro hfix
    rw [do_mmap]
    rw [if_neg hnot, if_neg hpages, if_neg (by omega), if_neg hfd']
    simp only [if_pos hnn, if_pos hfix]
    refine ⟨rfl, ?_⟩
    intro j hj
    exact mappedPage_cons_self _ _ j hj
  · intro hfix
    have hfix' : ¬ (flags &&& MAP_FIXED ≠ 0) := by simp [hfix]
    rw [do_mmap]
    rw [if_neg hnot, if_neg hpages, if_neg (by omega), if_neg hfd']
    simp only [if_pos hnn, if_neg hfix']
    constructor
    · intro va maps2 h
      simp only [memSpaceMap] at h
      by_cases hh : (decide (addr / PAGE_SIZE + div_ceil length PAGE_SIZE ≤ USER_PAGES) &&
          rangeFree maps (addr / PAGE_SIZE) (div_ceil length PAGE_SIZE)) = true
      · rw [if_pos hh] at h
        simp only [Bool.and_eq_true] at hh
        simp at h
        rcases h with ⟨h1, h2⟩
        rw [← h1]
        exact hh.2
      · rw [if_neg hh] at h
        rcases hg : gapSearch maps (div_ceil length PAGE_SIZE) with _ | b2
        · rw [hg] at h
          simp at h
        · rw [hg] at h
          simp at h
          rcases h with ⟨h1, h2⟩
          have hgs := gapSearchAux_some maps (div_ceil length PAGE_SIZE) USER_PAGES 0 b2 hg
          rw [← h1]
          have hps : (b2 * PAGE_SIZE) / PAGE_SIZE = b2 :=
            Nat.mul_div_cancel b2 (by decide)
          rw [hps]
          exact hgs.2
    · intro hg
      rcases hg2 : gapSearch maps (div_ceil length PAGE_SIZE) with _ | b2
      · exact absurd hg2 hg
      · simp only [memSpaceMap]
        by_cases hh : (decide (addr / PAGE_SIZE + div_ceil length PAGE_SIZE ≤ USER_PAGES) &&
            rangeFree maps (addr / PAGE_SIZE) (div_ceil length PAGE_SIZE)) = true
        · rw [if_pos hh]
          exact ⟨addr, _, rfl⟩
        · rw [if_neg hh, hg2]
          exact ⟨b2 * PAGE_SIZE, _, rfl⟩

/-- Witness for C3: a fixed mapping at `0x1000` over a memory space that
already maps that page succeeds at exactly `0x1000`. -/
theorem c3_mmap_witness :
    (4096 : Nat) % PAGE_SIZE = 0 ∧ (4096 : Nat) ≠ 0 ∧ (1 : Nat) ≠ 0 ∧
    ((-1 : Int) < 0) ∧
    4096 + div_ceil 1 PAGE_SIZE * PAGE_SIZE % 2 ^ 32 < 2 ^ 32 ∧
    (MAP_FIXED &&& MAP_FIXED ≠ 0 →
      do_mmap 4096 1 0 MAP_FIXED (-1) 0 (fun _ => none) [⟨1, 1, 1⟩] =
        .ok (4096,
          ⟨4096 / PAGE_SIZE, div_ceil 1 PAGE_SIZE, get_flags MAP_FIXED 0⟩ ::
            unmapRange [⟨1, 1, 1⟩] (4096 / PAGE_SIZE) (div_ceil 1 PAGE_SIZE)) ∧
      ∀ j < div_ceil 1 PAGE_SIZE,
        mappedPage
          (⟨4096 / PAGE_SIZE, div_ceil 1 PAGE_SIZE, get_flags MAP_FIXED 0⟩ ::
            unmapRange [⟨1, 1, 1⟩] (4096 / PAGE_SIZE) (div_ceil 1 PAGE_SIZE))
          (4096 / PAGE_SIZE + j) = true) :=
  ⟨rfl, by decide, by decide, by decide, by decide,
    (c3_mmap_fixed_overwrites_hint_advisory [⟨1, 1, 1⟩] 4096 1 0 MAP_FIXED (-1) 0
      (fun _ => none) rfl (by decide) (by decide) (by decide) (by decide)).1⟩

/-! ## ELF loader: auxiliary vector and initial stack
(`kernel/src/process/exec/elf.rs`)

Strings are byte lists; the stack words written by `init_stack` are
collected in write order (the source writes `stack_slice[stack_off]` and
then increments `stack_off`, so the word list index is the stack offset:
index 0 sits at the initial user SP and indices grow toward higher
addresses), and the information-block bytes likewise (the source writes at
`info_off` and advances it past the copied string and its NUL). -/

/-- `AT_NULL`. -/
def AT_NULL : Nat := 0
/-- `AT_PHDR`. -/
def AT_PHDR : Nat := 3
/-- `AT_PHENT`. -/
def AT_PHENT : Nat := 4
/-- `AT_PHNUM`. -/
def AT_PHNUM : Nat := 5
/-- `AT_PAGESZ`. -/
def AT_PAGESZ : Nat := 6
/-- `AT_BASE`. -/
def AT_BASE : Nat := 7
/-- `AT_ENTRY`. -/
def AT_ENTRY : Nat := 9
/-- `AT_NOTELF`. -/
def AT_NOTELF : Nat := 10
/-- `AT_UID`. -/
def AT_UID : Nat := 11
/-- `AT_EUID`. -/
def AT_EUID : Nat := 12
/-- `AT_GID`. -/
def AT_GID : Nat := 13
/-- `AT_EGID`. -/
def AT_EGID : Nat := 14
/-- `AT_PLATFORM`. -/
def AT_PLATFORM : Nat := 15
/-- `AT_HWCAP`. -/
def AT_HWCAP : Nat := 16
/-- `AT_SECURE`. -/
def AT_SECURE : Nat := 23
/-- `AT_BASE_PLATFORM`. -/
def AT_BASE_PLATFORM : Nat := 24
/-- `AT_RANDOM`. -/
def AT_RANDOM : Nat := 25
/-- `AT_EXECFN`. -/
def AT_EXECFN : Nat := 31
/-- `AT_SYSINFO`. -/
def AT_SYSINFO : Nat := 32
/-- `AT_SYSINFO_EHDR`. -/
def AT_SYSINFO_EHDR : Nat := 33

/-- `AuxEntryDescValue`. -/
inductive AuxEntryDescValue where
  | Number (n : Nat)
  | Str (s : List Nat)
  deriving DecidableEq, Repr

/-- `AuxEntryDesc`. -/
structure AuxEntryDesc where
  a_type : Nat
  a_val : AuxEntryDescValue
  deriving DecidableEq, Repr

/-- `ELFLoadInfo`. -/
structure ELFLoadInfoM where
  load_end : Nat
  phdr : Nat
  phentsize : Nat
  phnum : Nat
  entry_point : Nat
  interp_load_base : Option Nat
  interp_entry : Option Nat
  deriving DecidableEq, Repr

/-- `crate::NAME` as bytes. -/
def NAME_bytes : List Nat := [109, 97, 101, 115, 116, 114, 111]

/-- The placeholder `AT_EXECFN` payload written by the source. -/
def EXECFN_bytes : List Nat := [84, 79, 68, 79, 0]

/-- `build_auxiliary`, with the execution-info and vDSO inputs passed
explicitly. -/
def build_auxiliary (uid euid gid egid hwcap vdso_entry vdso_begin : Nat)
    (li : ELFLoadInfoM) : List AuxEntryDesc :=
  [⟨AT_PHDR, .Number li.phdr⟩,
    ⟨AT_PHENT, .Number li.phentsize⟩,
    ⟨AT_PHNUM, .Number li.phnum⟩,
    ⟨AT_PAGESZ, .Number PAGE_SIZE⟩] ++
  (match li.interp_load_base with
    | some base => [⟨AT_BASE, .Number base⟩]
    | none => []) ++
  (match li.interp_entry with
    | some entry => [⟨AT_ENTRY, .Number entry⟩]
    | none => []) ++
  [⟨AT_NOTELF, .Number 0⟩,
    ⟨AT_UID, .Number uid⟩,
    ⟨AT_EUID, .Number euid⟩,
    ⟨AT_GID, .Number gid⟩,
    ⟨AT_EGID, .Number egid⟩,
    ⟨AT_PLATFORM, .Str NAME_bytes⟩,
    ⟨AT_HWCAP, .Number hwcap⟩,
    ⟨AT_SECURE, .Number 0⟩,
    ⟨AT_BASE_PLATFORM, .Str NAME_bytes⟩,
    ⟨AT_RANDOM, .Str (List.replicate 16 0)⟩,
    ⟨AT_EXECFN, .Str EXECFN_bytes⟩,
    ⟨AT_SYSINFO, .Number vdso_entry⟩,
    ⟨AT_SYSINFO_EHDR, .Number vdso_begin⟩,
    ⟨AT_NULL, .Number 0⟩]

/-- The string payloads of an auxiliary vector, in order. -/
def aux_strs : List AuxEntryDesc → List (List Nat)
  | [] => []
  | ⟨_, .Str s⟩ :: rest => s :: aux_strs rest
  | ⟨_, .Number _⟩ :: rest => aux_strs rest

/-- Total length of strings stored with their NUL terminators. -/
def nulLen : List (List Nat) → Nat
  | [] => 0
  | s :: rest => s.length + 1 + nulLen rest

/-- `ELFExecutor::get_init_stack_size`: (information-block size with
padding, total initial-stack size). -/
def get_init_stack_size (argv envp : List (List Nat)) (aux : List AuxEntryDesc) :
    Nat × Nat :=
  let info_block_size := nulLen (aux_strs aux) + nulLen envp + nulLen argv
  let info_block_pad := 4 - info_block_size % 4
  let aux_size := aux.length * 8
  let envp_size := envp.length * 4 + 4
  let argv_size := argv.length * 4 + 8
  let total_size := info_block_size + info_block_pad + aux_size + envp_size + argv_size
  (info_block_size + info_block_pad, total_size)

/-- The two write cursors of `init_stack`: the words written to the stack
slice so far (in order of increasing stack offset) and the bytes written to
the information block so far (`info_off` is `info.length`). -/
structure StackBuild where
  words : List Nat
  info : List Nat
  deriving DecidableEq, Repr

/-- The argv/envp loops of `init_stack`: write the pointer
`info_base + info_off`, copy the string and its NUL terminator. -/
def write_strs (info_base : Nat) (st : StackBuild) : List (List Nat) → StackBuild
  | [] => st
  | s :: rest =>
    write_strs info_base
      { words := st.words ++ [info_base + st.info.length],
        info := st.info ++ s ++ [0] } rest

/-- The auxiliary-vector loop of `init_stack`: write the `(type, value)`
pair, copying string payloads into the information block. -/
def write_aux (info_base : Nat) (st : StackBuild) : List AuxEntryDesc → StackBuild
  | [] => st
  | a :: rest =>
    match a.a_val with
    | .Number n =>
      write_aux info_base { st with words := st.words ++ [a.a_type, n] } rest
    | .Str s =>
      write_aux info_base
        { words := st.words ++ [a.a_type, info_base + st.info.length],
          info := st.info ++ s ++ [0] } rest

/-- `ELFExecutor::init_stack`: argc first, then the argv loop, the argv
NUL word, the envp loop, the envp NUL word, and the auxiliary-vector
loop. -/
def init_stack (user_stack : Nat) (argv envp : List (List Nat))
    (aux : List AuxEntryDesc) : StackBuild :=
  let info_size := (get_init_stack_size argv envp aux).1
  let info_base := user_stack - info_size
  let st : StackBuild := { words := [argv.length], info := [] }
  let st := write_strs info_base st argv
  let st := { st with words := st.words ++ [0] }
  let st := write_strs info_base st envp
  let st := { st with words := st.words ++ [0] }
  write_aux info_base st aux

/-- Closed form of the information block: the strings packed in order, each
NUL-terminated. -/
def nulJoin : List (List Nat) → List Nat
  | [] => []
  | s :: rest => s ++ [0] ++ nulJoin rest

/-- Closed form of a pointer block: the addresses of consecutive
NUL-terminated strings starting at `base`. -/
def nulOffsets (base : Nat) : List (List Nat) → List Nat
  | [] => []
  | s :: rest => base :: nulOffsets (base + s.length + 1) rest

/-- Closed form of the auxiliary-vector words: `(type, value)` pairs, where
a string value is the address of its copy in the information block
(`info_base + off`, `off` advancing past each copied string). -/
def auxWords (info_base off : Nat) : List AuxEntryDesc → List Nat
  | [] => []
  | ⟨t, .Number n⟩ :: rest => t :: n :: auxWords info_base off rest
  | ⟨t, .Str s⟩ :: rest =>
    t :: (info_base + off) :: auxWords info_base (off + s.length + 1) rest

/-- `(l.drop a).take n`: the slice of `n` elements at offset `a`. -/
def listSlice (l : List Nat) (a n : Nat) : List Nat :=
  (l.drop a).take n

/-- The argv/envp loop writes the pointer block and packs the strings. -/
theorem write_strs_spec (info_base : Nat) :
    ∀ (strs : List (List Nat)) (st : StackBuild),
      (write_strs info_base st strs).words
          = st.words ++ nulOffsets (info_base + st.info.length) strs ∧
      (write_strs info_base st strs).info = st.info ++ nulJoin strs := by
  intro strs
  induction strs with
  | nil => intro st; simp [write_strs, nulOffsets, nulJoin]
  | cons s rest ih =>
    intro st
    rw [write_strs]
    obtain ⟨hw, hi⟩ := ih
      { words := st.words ++ [info_base + st.info.length], info := st.info ++ s ++ [0] }
    have hlen : info_base + (st.info ++ s ++ [0]).length
        = info_base + st.info.length + s.length + 1 := by
      simp
      omega
    constructor
    · rw [hw]
      simp only [nulOffsets, hlen]
      simp
    · rw [hi]
      simp [nulJoin]

/-- The auxiliary-vector loop writes the `(type, value)` pairs and packs
the string payloads. -/
theorem write_aux_spec (info_base : Nat) :
    ∀ (aux : List AuxEntryDesc) (st : StackBuild),
      (write_aux info_base st aux).words
          = st.words ++ auxWords info_base st.info.length aux ∧
      (write_aux info_base st aux).info = st.info ++ nulJoin (aux_strs aux) := by
  intro aux
  induction aux with
  | nil => intro st; simp [write_aux, auxWords, aux_strs, nulJoin]
  | cons a rest ih =>
    intro st
    rcases a with ⟨t, v⟩
    rcases v with n | s
    · rw [write_aux]
      obtain ⟨hw, hi⟩ := ih { st with words := st.words ++ [t, n] }
      constructor
      · rw [hw]
        simp [auxWords]
      · rw [hi]
        simp [aux_strs]
    · rw [write_aux]
      obtain ⟨hw, hi⟩ := ih
        { words := st.words ++ [t, info_base + st.info.length], info := st.info ++ s ++ [0] }
      have hlen : (st.info ++ s ++ [0]).length = st.info.length + s.length + 1 := by
        simp
        omega
      constructor
      · rw [hw]
        simp only [hlen]
        simp [auxWords]
      · rw [hi]
        simp [aux_strs, nulJoin]

/-- Closed form of `init_stack`: argc, the argv pointers, a NUL word, the
envp pointers, a NUL word, the auxiliary pairs; the information block holds
the argv strings, then the envp strings, then the auxiliary payloads, each
NUL-terminated. -/
theorem init_stack_spec (user_stack : Nat) (argv envp : List (List Nat))
    (aux : List AuxEntryDesc) :
    (init_stack user_stack argv envp aux).words
        = [argv.length]
          ++ nulOffsets (user_stack - (get_init_stack_size argv envp aux).1) argv
          ++ [0]
          ++ nulOffsets
            (user_stack - (get_init_stack_size argv envp aux).1 + (nulJoin argv).length)
            envp
          ++ [0]
          ++ auxWords (user_stack - (get_init_stack_size argv envp aux).1)
            ((nulJoin argv).length + (nulJoin envp).length) aux ∧
    (init_stack user_stack argv envp aux).info
        = nulJoin argv ++ nulJoin envp ++ nulJoin (aux_strs aux) := by
  simp only [init_stack]
  obtain ⟨hw1, hi1⟩ := write_strs_spec
    (user_stack - (get_init_stack_size argv envp aux).1) argv
    { words := [argv.length], info := [] }
  obtain ⟨hw2, hi2⟩ := write_strs_spec
    (user_stack - (get_init_stack_size argv envp aux).1) envp
    { words := (write_strs (user_stack - (get_init_stack_size argv envp aux).1)
        { words := [argv.length], info := [] } argv).words ++ [0],
      info := (write_strs (user_stack - (get_init_stack_size argv envp aux).1)
        { words := [argv.length], info := [] } argv).info }
  obtain ⟨hw3, hi3⟩ := write_aux_spec
    (user_stack - (get_init_stack_size argv envp aux).1) aux
    { words := (write_strs (user_stack - (get_init_stack_size argv envp aux).1)
        { words := (write_strs (user_stack - (get_init_stack_size argv envp aux).1)
            { words := [argv.length], info := [] } argv).words ++ [0],
          info := (write_strs (user_stack - (get_init_stack_size argv envp aux).1)
            { words := [argv.length], info := [] } argv).info } envp).words ++ [0],
      info := (write_strs (user_stack - (get_init_stack_size argv envp aux).1)
        { words := (write_strs (user_stack - (get_init_stack_size argv envp aux).1)
            { words := [argv.length], info := [] } argv).words ++ [0],
          info := (write_strs (user_stack - (get_init_stack_size argv envp aux).1)
            { words := [argv.length], info := [] } argv).info } envp).info }
  constructor
  · rw [hw3, hw2, hi2, hi1, hw1]
    simp [List.append_assoc]
  · rw [hi3, hi2, hi1]
    simp [List.append_assoc]

/-- The slice of the packed information block at the offset of the `i`-th
string is exactly that string followed by its NUL terminator. -/
theorem nulJoin_slice :
    ∀ (strs : List (List Nat)) (tail : List Nat) (i : Nat) (h : i < strs.length),
      listSlice (nulJoin strs ++ tail) ((nulJoin (strs.take i)).length)
        ((strs.get ⟨i, h⟩).length + 1) = strs.get ⟨i, h⟩ ++ [0] := by
  intro strs
  induction strs with
  | nil => intro tail i h; simp at h
  | cons s rest ih =>
    intro tail i h
    cases i with
    | zero =>
      simp only [List.take_zero, nulJoin, List.length_nil, listSlice, List.drop_zero,
        List.get]
      rw [List.append_assoc, List.append_assoc]
      have : s.length + 1 = (s ++ [0]).length := by simp
      rw [← List.append_assoc s [0], this, List.take_left]
    | succ i =>
      have hi : i < rest.length := by simpa using h
      have key := ih tail i hi
      simp only [listSlice] at key ⊢
      have hget : (s :: rest).get ⟨i + 1, h⟩ = rest.get ⟨i, hi⟩ := rfl
      rw [hget]
      have hlen : (nulJoin ((s :: rest).take (i + 1))).length
          = (s ++ [0]).length + (nulJoin (rest.take i)).length := by
        simp only [List.take_succ_cons, nulJoin, List.length_append, List.length_cons,
          List.length_nil]
      rw [hlen]
      have harr : nulJoin (s :: rest) ++ tail = (s ++ [0]) ++ (nulJoin rest ++ tail) := by
        simp [nulJoin]
      rw [harr, List.drop_append]
      exact key

/-- The `i`-th pointer of a pointer block is the base plus the packed
length of the preceding strings. -/
theorem nulOffsets_getElem :
    ∀ (strs : List (List Nat)) (base i : Nat), i < strs.length →
      (nulOffsets base strs)[i]? = some (base + (nulJoin (strs.take i)).length) := by
  intro strs
  induction strs with
  | nil => intro base i h; simp at h
  | cons s rest ih =>
    intro base i h
    cases i with
    | zero => simp [nulOffsets, nulJoin]
    | succ i =>
      have hi : i < rest.length := by simpa using h
      have := ih (base + s.length + 1) i hi
      simp only [nulOffsets, List.take_succ_cons, nulJoin]
      rw [List.getElem?_cons_succ, this]
      simp only [Option.some.injEq]
      simp
      omega

/-- The auxiliary vector produced by `build_auxiliary` always ends with the
`AT_NULL` entry. -/
theorem build_auxiliary_last (uid euid gid egid hwcap vdso_entry vdso_begin : Nat)
    (li : ELFLoadInfoM) :
    ∃ pre, build_auxiliary uid euid gid egid hwcap vdso_entry vdso_begin li
      = pre ++ [⟨AT_NULL, .Number 0⟩] := by
  refine ⟨[⟨AT_PHDR, .Number li.phdr⟩,
      ⟨AT_PHENT, .Number li.phentsize⟩,
      ⟨AT_PHNUM, .Number li.phnum⟩,
      ⟨AT_PAGESZ, .Number PAGE_SIZE⟩] ++
    (match li.interp_load_base with
      | some base => [⟨AT_BASE, .Number base⟩]
      | none => []) ++
    (match li.interp_entry with
      | some entry => [⟨AT_ENTRY, .Number entry⟩]
      | none => []) ++
    [⟨AT_NOTELF, .Number 0⟩,
      ⟨AT_UID, .Number uid⟩,
      ⟨AT_EUID, .Number euid⟩,
      ⟨AT_GID, .Number gid⟩,
      ⟨AT_EGID, .Number egid⟩,
      ⟨AT_PLATFORM, .Str NAME_bytes⟩,
      ⟨AT_HWCAP, .Number hwcap⟩,
      ⟨AT_SECURE, .Number 0⟩,
      ⟨AT_BASE_PLATFORM, .Str NAME_bytes⟩,
      ⟨AT_RANDOM, .Str (List.replicate 16 0)⟩,
      ⟨AT_EXECFN, .Str EXECFN_bytes⟩,
      ⟨AT_SYSINFO, .Number vdso_entry⟩,
      ⟨AT_SYSINFO_EHDR, .Number vdso_begin⟩], ?_⟩
  simp [build_auxiliary, List.append_assoc]

/-- C6: structure of the initial user stack built by the ELF loader.  With
`aux` the auxiliary vector produced by `build_auxiliary`, the words written
from the initial SP upward are: argc, the argc argv pointers followed by a
null word, the envp pointers followed by a null word, and the `(type,
value)` auxiliary pairs, whose last entry is `AT_NULL`; the string payloads
are packed (NUL-terminated) above, and the `i`-th argv/envp pointer is the
address of the `i`-th copied string. -/
theorem c6_init_stack_layout (user_stack uid euid gid egid hwcap vdso_entry
    vdso_begin : Nat) (li : ELFLoadInfoM) (argv envp : List (List Nat)) :
    let aux := build_auxiliary uid euid gid egid hwcap vdso_entry vdso_begin li
    let base := user_stack - (get_init_stack_size argv envp aux).1
    let sb := init_stack user_stack argv envp aux
    sb.words
        = [argv.length] ++ nulOffsets base argv ++ [0]
          ++ nulOffsets (base + (nulJoin argv).length) envp ++ [0]
          ++ auxWords base ((nulJoin argv).length + (nulJoin envp).length) aux ∧
    sb.info = nulJoin argv ++ nulJoin envp ++ nulJoin (aux_strs aux) ∧
    (∀ i (h : i < argv.length),
      (nulOffsets base argv)[i]? = some (base + (nulJoin (argv.take i)).length) ∧
      listSlice sb.info ((nulJoin (argv.take i)).length) ((argv.get ⟨i, h⟩).length + 1)
        = argv.get ⟨i, h⟩ ++ [0]) ∧
    (∀ j (h : j < envp.length),
      (nulOffsets (base + (nulJoin argv).length) envp)[j]?
          = some (base + (nulJoin argv).length + (nulJoin (envp.take j)).length) ∧
      listSlice sb.info ((nulJoin argv).length + (nulJoin (envp.take j)).length)
          ((envp.get ⟨j, h⟩).length + 1)
        = envp.get ⟨j, h⟩ ++ [0]) ∧
    (∃ pre, aux = pre ++ [⟨AT_NULL, .Number 0⟩]) := by
  intro aux base sb
  obtain ⟨hw, hi⟩ := init_stack_spec user_stack argv envp aux
  refine ⟨hw, hi, ?_, ?_, ?_⟩
  · intro i h
    refine ⟨nulOffsets_getElem argv base i h, ?_⟩
    have : sb.info = nulJoin argv ++ (nulJoin envp ++ nulJoin (aux_strs aux)) := by
      rw [hi, List.append_assoc]
    rw [this]
    exact nulJoin_slice argv (nulJoin envp ++ nulJoin (aux_strs aux)) i h
  · intro j h
    constructor
    · exact nulOffsets_getElem envp (base + (nulJoin argv).length) j h
    · have h2 : sb.info = nulJoin argv ++ (nulJoin envp ++ nulJoin (aux_strs aux)) := by
        rw [hi, List.append_assoc]
      have key := nulJoin_slice envp (nulJoin (aux_strs aux)) j h
      simp only [listSlice] at key ⊢
      rw [h2, List.drop_append]
      exact key
  · exact build_auxiliary_last uid euid gid egid hwcap vdso_entry vdso_begin li

/-- Concrete load information for the C6 witness. -/
def c6_li : ELFLoadInfoM :=
  { load_end := 0x5000, phdr := 0x3000, phentsize := 32, phnum := 2,
    entry_point := 0x1000, interp_load_base := none, interp_entry := none }

/-- Witness for C6: the layout theorem instantiated on a one-argument,
one-variable initial stack. -/
theorem c6_init_stack_layout_witness :
    (let aux := build_auxiliary 1 2 3 4 5 6 7 c6_li
     let base := 4096 - (get_init_stack_size [[65]] [[66, 67]] aux).1
     let sb := init_stack 4096 [[65]] [[66, 67]] aux
     sb.words
        = [([[65]] : List (List Nat)).length] ++ nulOffsets base [[65]] ++ [0]
          ++ nulOffsets (base + (nulJoin [[65]]).length) [[66, 67]] ++ [0]
          ++ auxWords base ((nulJoin [[65]]).length + (nulJoin [[66, 67]]).length) aux ∧
     sb.info = nulJoin [[65]] ++ nulJoin [[66, 67]] ++ nulJoin (aux_strs aux) ∧
     (∀ i (h : i < ([[65]] : List (List Nat)).length),
       (nulOffsets base [[65]])[i]?
           = some (base + (nulJoin (([[65]] : List (List Nat)).take i)).length) ∧
       listSlice sb.info ((nulJoin (([[65]] : List (List Nat)).take i)).length)
           ((([[65]] : List (List Nat)).get ⟨i, h⟩).length + 1)
         = ([[65]] : List (List Nat)).get ⟨i, h⟩ ++ [0]) ∧
     (∀ j (h : j < ([[66, 67]] : List (List Nat)).length),
       (nulOffsets (base + (nulJoin [[65]]).length) [[66, 67]])[j]?
           = some (base + (nulJoin [[65]]).length
               + (nulJoin (([[66, 67]] : List (List Nat)).take j)).length) ∧
       listSlice sb.info ((nulJoin [[65]]).length
             + (nulJoin (([[66, 67]] : List (List Nat)).take j)).length)
           ((([[66, 67]] : List (List Nat)).get ⟨j, h⟩).length + 1)
         = ([[66, 67]] : List (List Nat)).get ⟨j, h⟩ ++ [0]) ∧
     (∃ pre, aux = pre ++ [⟨AT_NULL, .Number 0⟩])) :=
  c6_init_stack_layout 4096 1 2 3 4 5 6 7 c6_li [[65]] [[66, 67]]

/-! ## ELF loader: segment allocation and interpreter handling
(`kernel/src/process/exec/elf.rs`, `ELFExecutor::load_elf`)

The ELF parser is abstracted as the data `load_elf` reads from it:
the program headers, `e_entry`, `e_phentsize`, `e_phnum` and the optional
`PT_INTERP` path (an opaque identifier resolved through `resolve`, which
stands for the VFS lookup plus `read_exec_file` plus parsing).  Segment
copies and relocations only write page contents, which the mapping model
does not track; `MemSpace::alloc` (pre-faulting) is a no-op on the mapping
set. -/

/-- `PT_LOAD`. -/
def PT_LOAD : Nat := 1
/-- `PT_INTERP`. -/
def PT_INTERP : Nat := 3
/-- `PT_PHDR`. -/
def PT_PHDR : Nat := 6

/-- `ELF32ProgramHeader`, restricted to the fields `load_elf` reads. -/
structure ELF32ProgramHeader where
  p_type : Nat
  p_offset : Nat
  p_vaddr : Nat
  p_filesz : Nat
  p_memsz : Nat
  p_flags : Nat
  p_align : Nat
  deriving DecidableEq, Repr

/-- `usize::is_power_of_two`. -/
def is_power_of_two (n : Nat) : Bool :=
  n != 0 && (n &&& (n - 1)) == 0

/-- Modelled from the spec: `ELF32ProgramHeader::get_mem_space_flags`
derives the mapping permissions from `p_flags` (PF_X = 1, PF_W = 2). -/
def get_mem_space_flags (p_flags : Nat) : Nat :=
  let f := MAPPING_FLAG_USER
  let f := if p_flags &&& 2 ≠ 0 then f ||| MAPPING_FLAG_WRITE else f
  if p_flags &&& 1 ≠ 0 then f ||| MAPPING_FLAG_EXEC else f

/-- The padding before a segment:
`p_vaddr % max(p_align, PAGE_SIZE)`. -/
def seg_pad (seg : ELF32ProgramHeader) : Nat :=
  seg.p_vaddr % max seg.p_align PAGE_SIZE

/-- The number of pages a segment occupies. -/
def seg_pages (seg : ELF32ProgramHeader) : Nat :=
  div_ceil (seg_pad seg + seg.p_memsz) PAGE_SIZE

/-- The beginning of a segment in virtual memory (`usize` arithmetic wraps
at `2 ^ 32`). -/
def seg_begin (load_base : Nat) (seg : ELF32ProgramHeader) : Nat :=
  (load_base + (seg.p_vaddr - seg_pad seg)) % 2 ^ 32

/-- The end of the virtual memory chunk of a segment. -/
def seg_end (load_base : Nat) (seg : ELF32ProgramHeader) : Nat :=
  (seg_begin load_base seg + seg_pages seg * PAGE_SIZE) % 2 ^ 32

/-- `ELFExecutor::alloc_segment`: returns the end pointer for loadable
segments, after mapping the pages at the fixed address. -/
def alloc_segment (load_base : Nat) (maps : MSMaps) (seg : ELF32ProgramHeader) :
    Except ErrnoK (Option Nat × MSMaps) :=
  -- Load only loadable segments
  if seg.p_type ≠ PT_LOAD ∧ seg.p_type ≠ PT_PHDR then .ok (none, maps)
  -- Check the alignment is correct
  else if is_power_of_two seg.p_align = false then .error .EINVAL
  else
    let pages := seg_pages seg
    if pages ≠ 0 then
      match memSpaceMap maps (.Fixed (seg_begin load_base seg)) pages
          (get_mem_space_flags seg.p_flags) with
      | .error e => .error e
      | .ok (_, maps2) => .ok (some (seg_end load_base seg), maps2)
    else .ok (some (seg_end load_base seg), maps)

/-- The segment loop of `load_elf`: allocate every segment, accumulating
the maximal end pointer into `load_end` (initially the load base). -/
def load_segments (load_base : Nat) (load_end : Nat) (maps : MSMaps) :
    List ELF32ProgramHeader → Except ErrnoK (Nat × MSMaps)
  | [] => .ok (load_end, maps)
  | seg :: rest =>
    match alloc_segment load_base maps seg with
    | .error e => .error e
    | .ok (none, maps2) => load_segments load_base load_end maps2 rest
    | .ok (some e, maps2) => load_segments load_base (max e load_end) maps2 rest

/-- The data `load_elf` reads from a parsed ELF file. -/
structure ELFParserM where
  segments : List ELF32ProgramHeader
  e_entry : Nat
  e_phentsize : Nat
  e_phnum : Nat
  interp_path : Option Nat
  deriving DecidableEq, Repr

/-- `ELFExecutor::load_elf`: allocate the segments, locate (or map a copy
of) the program headers, then, if a `PT_INTERP` path is present, fail with
`EINVAL` when already loading an interpreter, otherwise load the
interpreter at the end of the loaded segments and take over its entry
point. -/
def load_elf (resolve : Nat → Option ELFParserM) (elf : ELFParserM) (maps : MSMaps)
    (load_base : Nat) (interp : Bool) : Except ErrnoK (ELFLoadInfoM × MSMaps) :=
  match load_segments load_base load_base maps elf.segments with
  | .error e => .error e
  | .ok (load_end, maps1) =>
    let phentsize := elf.e_phentsize
    let phnum := elf.e_phnum
    let phdr_size := phentsize * phnum
    let phdr? : Except ErrnoK (Nat × MSMaps) :=
      match (elf.segments.find? fun s => s.p_type == PT_PHDR).map
          (fun s => s.p_vaddr) with
      | some phdr => .ok (phdr, maps1)
      | none =>
        -- No phdr segment: load it manually
        let pages := div_ceil phdr_size PAGE_SIZE
        if pages = 0 then .error .EINVAL
        else
          match memSpaceMap maps1 .NoneC pages MAPPING_FLAG_USER with
          | .error e => .error e
          | .ok (phdr, maps2) => .ok (phdr, maps2)
    match phdr? with
    | .error e => .error e
    | .ok (phdr, maps2) =>
      match elf.interp_path with
      | some ipath =>
        -- If the interpreter tries to load another interpreter, error
        if hI : interp then .error .EINVAL
        else
          match resolve ipath with
          | none => .error .ENOENT
          | some interp_elf =>
            match load_elf resolve interp_elf maps2 load_end true with
            | .error e => .error e
            | .ok (load_info, maps3) =>
              .ok ({ load_end := load_info.load_end,
                     phdr := phdr, phentsize := phentsize, phnum := phnum,
                     entry_point := load_info.entry_point,
                     interp_load_base := some load_end,
                     interp_entry := some ((load_base + elf.e_entry) % 2 ^ 32) },
                   maps3)
      | none =>
        .ok ({ load_end := load_end,
               phdr := phdr, phentsize := phentsize, phnum := phnum,
               entry_point := (load_base + elf.e_entry) % 2 ^ 32,
               interp_load_base := none, interp_entry := none }, maps2)
termination_by (if interp then 0 else 1)
decreasing_by
  simp only [Bool.not_eq_true] at hI
  simp [hI]

/-- A non-loadable segment allocates nothing. -/
theorem alloc_segment_not_loadable (load_base : Nat) (maps : MSMaps)
    (seg : ELF32ProgramHeader) (h : seg.p_type ≠ PT_LOAD ∧ seg.p_type ≠ PT_PHDR) :
    alloc_segment load_base maps seg = .ok (none, maps) := by
  simp [alloc_segment, h]

/-- A loadable segment with a power-of-two alignment allocates successfully
and reports its end pointer. -/
theorem alloc_segment_loadable (load_base : Nat) (maps : MSMaps)
    (seg : ELF32ProgramHeader) (hL : ¬ (seg.p_type ≠ PT_LOAD ∧ seg.p_type ≠ PT_PHDR))
    (hpow : is_power_of_two seg.p_align = true) :
    ∃ maps2, alloc_segment load_base maps seg
      = .ok (some (seg_end load_base seg), maps2) := by
  simp only [alloc_segment, if_neg hL]
  rw [if_neg (by simp [hpow])]
  by_cases hp : seg_pages seg ≠ 0
  · rw [if_pos hp]
    refine ⟨⟨seg_begin load_base seg / PAGE_SIZE, seg_pages seg,
      get_mem_space_flags seg.p_flags⟩ ::
        unmapRange maps (seg_begin load_base seg / PAGE_SIZE) (seg_pages seg), ?_⟩
    simp [memSpaceMap]
  · rw [if_neg hp]
    exact ⟨maps, rfl⟩

/-- The segment loop succeeds on power-of-two-aligned segments and its
result bounds the end of every loadable segment (and the initial value). -/
theorem load_segments_ok (load_base : Nat) :
    ∀ (segs : List ELF32ProgramHeader) (le : Nat) (maps : MSMaps),
      (∀ seg ∈ segs, is_power_of_two seg.p_align = true) →
      ∃ le2 maps2, load_segments load_base le maps segs = .ok (le2, maps2) ∧
        le ≤ le2 ∧
        ∀ seg ∈ segs, (seg.p_type = PT_LOAD ∨ seg.p_type = PT_PHDR) →
          seg_end load_base seg ≤ le2 := by
  intro segs
  induction segs with
  | nil =>
    intro le maps h
    exact ⟨le, maps, rfl, Nat.le_refl le, by simp⟩
  | cons seg rest ih =>
    intro le maps h
    have hpow := h seg (by simp)
    have hrest : ∀ s ∈ rest, is_power_of_two s.p_align = true :=
      fun s hs => h s (by simp [hs])
    by_cases hL : seg.p_type ≠ PT_LOAD ∧ seg.p_type ≠ PT_PHDR
    · obtain ⟨le2, maps2, heq, hle, hbound⟩ := ih le maps hrest
      refine ⟨le2, maps2, ?_, hle, ?_⟩
      · rw [load_segments, alloc_segment_not_loadable load_base maps seg hL]
        exact heq
      · intro s hs hload
        rcases List.mem_cons.mp hs with hs | hs
        · subst hs
          rcases hload with h1 | h1
          · exact absurd h1 hL.1
          · exact absurd h1 hL.2
        · exact hbound s hs hload
    · obtain ⟨maps', halloc⟩ := alloc_segment_loadable load_base maps seg hL hpow
      obtain ⟨le2, maps2, heq, hle, hbound⟩ :=
        ih (max (seg_end load_base seg) le) maps' hrest
      refine ⟨le2, maps2, ?_, ?_, ?_⟩
      · rw [load_segments, halloc]
        exact heq
      · exact Nat.le_trans (Nat.le_max_right _ _) hle
      · intro s hs hload
        rcases List.mem_cons.mp hs with hs | hs
        · subst hs
          exact Nat.le_trans (Nat.le_max_left _ _) hle
        · exact hbound s hs hload

/-- `load_elf` on an ELF without `PT_INTERP` (with power-of-two alignments
and a `PT_PHDR` segment present): it succeeds, its entry point is the load
base plus `e_entry`, and its load end bounds every loadable segment. -/
theorem load_elf_no_interp (resolve : Nat → Option ELFParserM) (elf : ELFParserM)
    (maps : MSMaps) (load_base : Nat) (interp : Bool)
    (hseg : ∀ s ∈ elf.segments, is_power_of_two s.p_align = true)
    (hphdr : ∃ s, elf.segments.find? (fun x => x.p_type == PT_PHDR) = some s)
    (hip : elf.interp_path = none) :
    ∃ le maps1 s,
      load_segments load_base load_base maps elf.segments = .ok (le, maps1) ∧
      elf.segments.find? (fun x => x.p_type == PT_PHDR) = some s ∧
      load_elf resolve elf maps load_base interp
        = .ok ({ load_end := le, phdr := s.p_vaddr, phentsize := elf.e_phentsize,
                 phnum := elf.e_phnum,
                 entry_point := (load_base + elf.e_entry) % 2 ^ 32,
                 interp_load_base := none, interp_entry := none }, maps1) ∧
      load_base ≤ le ∧
      (∀ seg ∈ elf.segments, (seg.p_type = PT_LOAD ∨ seg.p_type = PT_PHDR) →
        seg_end load_base seg ≤ le) := by
  obtain ⟨le, maps1, heq, hle, hbound⟩ :=
    load_segments_ok load_base elf.segments load_base maps hseg
  obtain ⟨s, hs⟩ := hphdr
  refine ⟨le, maps1, s, heq, hs, ?_, hle, hbound⟩
  rw [load_elf, heq]
  simp [hs, hip]

/-- C8: at most one level of interpreter.  For an executable whose
`PT_INTERP` path resolves to `ielf` (both images having power-of-two
segment alignments and a `PT_PHDR` segment): if the interpreter itself has
a `PT_INTERP` segment, loading fails with `EINVAL`; otherwise loading
succeeds, the interpreter's recorded base is the end of the main image's
loaded segments — hence at or above the end of every loadable main
segment — and the resulting entry point is the interpreter's (its base plus
its `e_entry`). -/
theorem c8_interp_one_level (resolve : Nat → Option ELFParserM)
    (elf ielf : ELFParserM) (maps : MSMaps) (ipath : Nat)
    (hseg : ∀ s ∈ elf.segments, is_power_of_two s.p_align = true)
    (hphdr : ∃ s, elf.segments.find? (fun x => x.p_type == PT_PHDR) = some s)
    (hip : elf.interp_path = some ipath)
    (hres : resolve ipath = some ielf)
    (hseg2 : ∀ s ∈ ielf.segments, is_power_of_two s.p_align = true)
    (hphdr2 : ∃ s, ielf.segments.find? (fun x => x.p_type == PT_PHDR) = some s) :
    (∀ q, ielf.interp_path = some q →
      load_elf resolve elf maps 0 false = .error .EINVAL) ∧
    (ielf.interp_path = none →
      ∃ le maps1 li maps2,
        load_segments 0 0 maps elf.segments = .ok (le, maps1) ∧
        load_elf resolve elf maps 0 false = .ok (li, maps2) ∧
        li.interp_load_base = some le ∧
        li.entry_point = (le + ielf.e_entry) % 2 ^ 32 ∧
        (∀ seg ∈ elf.segments, (seg.p_type = PT_LOAD ∨ seg.p_type = PT_PHDR) →
          seg_end 0 seg ≤ le)) := by
  obtain ⟨le, maps1, heq, hle, hbound⟩ := load_segments_ok 0 elf.segments 0 maps hseg
  obtain ⟨s, hs⟩ := hphdr
  constructor
  · intro q hq
    obtain ⟨le2, maps1', heq2, hle2, hbound2⟩ :=
      load_segments_ok le ielf.segments le maps1 hseg2
    obtain ⟨s2, hs2⟩ := hphdr2
    rw [load_elf, heq]
    simp only [hs, Option.map_some', hip, hres]
    rw [dif_neg (by simp)]
    rw [load_elf, heq2]
    simp [hs2, hq]
  · intro hip2
    obtain ⟨le2, maps1', s2, heq2, hs2, hload2, hle2, hbound2⟩ :=
      load_elf_no_interp resolve ielf maps1 le true hseg2 hphdr2 hip2
    have hmain : load_elf resolve elf maps 0 false
        = .ok ({ load_end := le2, phdr := s.p_vaddr, phentsize := elf.e_phentsize,
                 phnum := elf.e_phnum,
                 entry_point := (le + ielf.e_entry) % 2 ^ 32,
                 interp_load_base := some le,
                 interp_entry := some ((0 + elf.e_entry) % 2 ^ 32) }, maps1') := by
      rw [load_elf, heq]
      simp only [hs, Option.map_some', hip, hres]
      rw [dif_neg (by simp)]
      rw [hload2]
    exact ⟨le, maps1, _, maps1', heq, hmain, rfl, rfl, hbound⟩

/-- A concrete one-segment dynamically linked executable (witness data). -/
def c8_main_elf : ELFParserM :=
  { segments := [⟨PT_PHDR, 0, 0x1000, 0, 0x100, 5, 0x1000⟩],
    e_entry := 0x1080, e_phentsize := 32, e_phnum := 1,
    interp_path := some 9 }

/-- A concrete interpreter image without `PT_INTERP` (witness data). -/
def c8_interp_elf : ELFParserM :=
  { segments := [⟨PT_PHDR, 0, 0x2000, 0, 0x80, 5, 0x1000⟩],
    e_entry := 0x20, e_phentsize := 32, e_phnum := 1,
    interp_path := none }

/-- Witness for C8: a one-segment executable whose interpreter has no
second-level interpreter loads with the interpreter based at the end of the
main image. -/
theorem c8_interp_one_level_witness :
    (∀ s ∈ c8_main_elf.segments, is_power_of_two s.p_align = true) ∧
    (∃ s, c8_main_elf.segments.find? (fun x => x.p_type == PT_PHDR) = some s) ∧
    c8_main_elf.interp_path = some 9 ∧
    (fun _ : Nat => some c8_interp_elf) 9 = some c8_interp_elf ∧
    (∀ s ∈ c8_interp_elf.segments, is_power_of_two s.p_align = true) ∧
    (∃ s, c8_interp_elf.segments.find? (fun x => x.p_type == PT_PHDR) = some s) ∧
    (c8_interp_elf.interp_path = none →
      ∃ le maps1 li maps2,
        load_segments 0 0 [] c8_main_elf.segments = .ok (le, maps1) ∧
        load_elf (fun _ => some c8_interp_elf) c8_main_elf [] 0 false
          = .ok (li, maps2) ∧
        li.interp_load_base = some le ∧
        li.entry_point = (le + c8_interp_elf.e_entry) % 2 ^ 32 ∧
        (∀ seg ∈ c8_main_elf.segments,
          (seg.p_type = PT_LOAD ∨ seg.p_type = PT_PHDR) →
          seg_end 0 seg ≤ le)) := by
  refine ⟨by decide, ⟨⟨PT_PHDR, 0, 0x1000, 0, 0x100, 5, 0x1000⟩, by decide⟩, rfl, rfl,
    by decide, ⟨⟨PT_PHDR, 0, 0x2000, 0, 0x80, 5, 0x1000⟩, by decide⟩, ?_⟩
  exact (c8_interp_one_level (fun _ => some c8_interp_elf) c8_main_elf c8_interp_elf
    [] 9 (by decide) ⟨⟨PT_PHDR, 0, 0x1000, 0, 0x100, 5, 0x1000⟩, by decide⟩ rfl rfl
    (by decide) ⟨⟨PT_PHDR, 0, 0x2000, 0, 0x80, 5, 0x1000⟩, by decide⟩).2

end Maestro
